import Mathlib

/-!
Verification development for the `electric-stimulation` repository
(NI-DAQmx trigger generation: `trigger_generator_backend.py` and
`trigger_generator_gui.py`).

The Python source is shallowly embedded:
* real-valued durations, rates and elapsed times become `ℚ`;
* Python `int(x)` (truncation toward zero) becomes `pyInt`;
* Python float `%` (for positive divisor) becomes `fmod`;
* numpy buffers become `List ℚ`;
* the `DAQWorker.run` method, whose behaviour depends on the hardware
  driver and on when the GUI thread sets the stop flag, becomes a
  deterministic trace-producing function parameterised by an
  environment (`Env`) that decides which driver calls raise and at
  which flag-read the stop request becomes visible.
-/

/-- Python `int(x)`: truncation toward zero. -/
def pyInt (q : ℚ) : ℤ := if 0 ≤ q then ⌊q⌋ else ⌈q⌉

/-- Stop index of the Python slice `a[:n]` for a sequence of length `len`:
nonnegative `n` is clamped to `len`, negative `n` counts from the end. -/
def pySliceStop (len : ℕ) (n : ℤ) : ℕ :=
  if 0 ≤ n then min n.toNat len else len - (-n).toNat

/-- Python float `%` for the operands appearing in the GUI
(`cycle_time % cycle_duration` with `cycle_duration > 0`):
`a - b * ⌊a / b⌋`. -/
def fmod (a b : ℚ) : ℚ := a - b * ⌊a / b⌋

/-- The generation parameters handed to `DAQWorker.__init__` (minus the
resolved device/channel string, which is kept separately where needed). -/
structure GenerationParameters where
  sampling_rate : ℚ
  trigger_duration : ℚ
  inter_trigger_interval : ℚ
  initial_trigger_delay : ℚ
  infinite : Bool
  nb_triggers : ℤ
  deriving DecidableEq

/-- Validity of parameters as constrained by the spec (§3) and by the GUI
spin-box ranges: positive sampling rate, positive trigger duration,
nonnegative interval and initial delay, positive trigger count. -/
def ValidParams (p : GenerationParameters) : Prop :=
  0 < p.sampling_rate ∧ 0 < p.trigger_duration ∧
  0 ≤ p.inter_trigger_interval ∧ 0 ≤ p.initial_trigger_delay ∧
  1 ≤ p.nb_triggers

instance (p : GenerationParameters) : Decidable (ValidParams p) := by
  unfold ValidParams; infer_instance

/-- `initial_delay_samples = int(self.initial_trigger_delay * self.sampling_rate)`
(`trigger_generator_backend.py`, line 69). -/
def initial_delay_samples (p : GenerationParameters) : ℤ :=
  pyInt (p.initial_trigger_delay * p.sampling_rate)

/-- `trigger_samples = int(self.trigger_duration * self.sampling_rate)`
(line 70). -/
def trigger_samples (p : GenerationParameters) : ℤ :=
  pyInt (p.trigger_duration * p.sampling_rate)

/-- `interval_samples = int(self.inter_trigger_interval * self.sampling_rate)`
(line 71). -/
def interval_samples (p : GenerationParameters) : ℤ :=
  pyInt (p.inter_trigger_interval * p.sampling_rate)

/-- `samples_per_cycle = trigger_samples + interval_samples` (line 72). -/
def samples_per_cycle (p : GenerationParameters) : ℤ :=
  trigger_samples p + interval_samples p

/-- `cycle_duration = trigger + interval`
(`trigger_generator_gui.py`, line 280). -/
def cycle_duration (p : GenerationParameters) : ℚ :=
  p.trigger_duration + p.inter_trigger_interval

/-- `Sig_cycle = np.zeros(samples_per_cycle); Sig_cycle[:trigger_samples] = 2.0`
(backend lines 75–76). -/
def Sig_cycle (p : GenerationParameters) : List ℚ :=
  (List.range (samples_per_cycle p).toNat).map
    (fun i =>
      if i < pySliceStop (samples_per_cycle p).toNat (trigger_samples p)
      then 2 else 0)

/-- `np.zeros(initial_delay_samples)` — the neutral-voltage delay buffer
(backend lines 92 and 132). -/
def delay_buffer (p : GenerationParameters) : List ℚ :=
  List.replicate (initial_delay_samples p).toNat 0

/-- `data = np.concatenate([np.zeros(initial_delay_samples),
np.tile(Sig_cycle, self.nb_triggers)])` — the finite-mode playback buffer
(backend lines 131–134).  `np.tile` with a negative repetition count
produces an empty tiling, hence `Int.toNat`. -/
def finite_data (p : GenerationParameters) : List ℚ :=
  delay_buffer p ++ (List.replicate p.nb_triggers.toNat (Sig_cycle p)).flatten

/-- Python `str.strip()`: drop leading and trailing whitespace. -/
def pyStrip (s : String) : String :=
  ⟨((s.data.dropWhile Char.isWhitespace).reverse.dropWhile Char.isWhitespace).reverse⟩

/-- `build_channel_path(device_str, channel_str)` (backend lines 25–32):
`dev = device_str.strip() or "Dev2"`, `ch = channel_str.strip() or "ao0"`,
`f"{dev}/{ch}" if ch else dev`. -/
def build_channel_path (device_str channel_str : String) : String :=
  let dev := if pyStrip device_str = "" then "Dev2" else pyStrip device_str
  let ch := if pyStrip channel_str = "" then "ao0" else pyStrip channel_str
  if ch ≠ "" then dev ++ "/" ++ ch else dev

/-- Display phase shown by `update_state_indicator`
(`trigger_generator_gui.py`, lines 272–317). -/
inductive Phase where
  | initialDelay
  | trigger
  | interval
  | done
  deriving DecidableEq

/-- The phase computed by `update_state_indicator` from the stored worker
parameters and the elapsed wall-clock time (GUI lines 283–311):
initial delay, then position inside the repeating cycle via float `%`;
in finite mode, `Done` once `cycle_time >= nb_triggers * cycle_duration`. -/
def update_state_phase (p : GenerationParameters) (elapsed : ℚ) : Phase :=
  if elapsed < p.initial_trigger_delay then
    Phase.initialDelay
  else
    let cycle_time := elapsed - p.initial_trigger_delay
    if p.infinite then
      let pos_in_cycle := fmod cycle_time (cycle_duration p)
      if pos_in_cycle < p.trigger_duration then Phase.trigger else Phase.interval
    else
      if p.nb_triggers * cycle_duration p ≤ cycle_time then Phase.done
      else
        let pos_in_cycle := fmod cycle_time (cycle_duration p)
        if pos_in_cycle < p.trigger_duration then Phase.trigger else Phase.interval

/-- Keys of the record written by `save_params_to_json`
(GUI lines 325–337). -/
def saveKeys : List String :=
  ["device", "channel", "sampling_rate", "trigger_duration",
   "inter_trigger_interval", "initial_trigger_delay", "infinite",
   "nb_triggers", "duree_secondes", "heure_debut", "heure_fin"]

/-- A loaded flat JSON record, restricted to the keys that
`load_params_from_json` actually consults (`none` = key absent;
unrecognised keys are ignored by `dict.get` and need no representation). -/
structure StoredParams where
  device : Option String := none
  channel : Option String := none
  sampling_rate : Option ℚ := none
  trigger_duration : Option ℚ := none
  pulse_duration : Option ℚ := none
  inter_trigger_interval : Option ℚ := none
  inter_pulse_interval : Option ℚ := none
  initial_trigger_delay : Option ℚ := none
  infinite : Option Bool := none
  nb_triggers : Option ℤ := none
  nb_pulses : Option ℤ := none
  deriving DecidableEq

/-- The parameter fields of the GUI form set by `load_params_from_json`. -/
structure UIParams where
  device : String
  channel : String
  sampling_rate : ℚ
  trigger_duration : ℚ
  inter_trigger_interval : ℚ
  initial_trigger_delay : ℚ
  infinite : Bool
  nb_triggers : ℤ
  deriving DecidableEq

/-- `load_params_from_json` field assignment (GUI lines 375–382):
each `data.get(key, default)`, with the legacy fallbacks
`pulse_duration`, `inter_pulse_interval`, `nb_pulses`. -/
def load_params (d : StoredParams) : UIParams :=
  { device := d.device.getD "Dev2"
    channel := d.channel.getD "ao0"
    sampling_rate := d.sampling_rate.getD 1000
    trigger_duration := d.trigger_duration.getD (d.pulse_duration.getD (1/5))
    inter_trigger_interval :=
      d.inter_trigger_interval.getD (d.inter_pulse_interval.getD 20)
    initial_trigger_delay := d.initial_trigger_delay.getD 5
    infinite := d.infinite.getD true
    nb_triggers := d.nb_triggers.getD (d.nb_pulses.getD 5) }

/-- The mutable state of a `DAQWorker` instance: the constructor
arguments (backend lines 44–54) plus the stop flag. -/
structure DAQWorker where
  device : String
  params : GenerationParameters
  stop_requested : Bool
  deriving DecidableEq

/-- `DAQWorker.stop` (backend lines 56–58): set the stop flag. -/
def DAQWorker.stop (w : DAQWorker) : DAQWorker :=
  { w with stop_requested := true }

/-- `TriggerGeneratorWindow.stop_generation` (GUI lines 248–251):
`if self.worker: self.worker.stop()` — a no-op when no worker exists. -/
def stop_generation (worker : Option DAQWorker) : Option DAQWorker :=
  match worker with
  | none => none
  | some w => some w.stop

/-! ## Trace model of `DAQWorker.run` (backend lines 60–216)

The run interacts with the NI-DAQmx driver and with the stop flag set
from the GUI thread.  Both are abstracted into an environment:
`failAt n` says whether the `n`-th driver call raises (and with which
message), and `stopAt` is the index of the flag read at which the stop
request first becomes visible (the flag is write-once, so reads are
monotone: read `r` yields `stopAt ≤ r`).  The run itself becomes a
deterministic function producing the list of observable events. -/

/-- The hardware tasks created by `run`: `t_delay`, `t`, `t_zero`. -/
inductive TaskId where
  | delayT
  | mainT
  | zeroT
  deriving DecidableEq

/-- Driver operations invoked on a task. -/
inductive Op where
  | create
  | chan
  | cfg
  | write
  | start
  | wait
  | stop
  | clear
  | writeScalar
  deriving DecidableEq

/-- Observable events of one run. -/
inductive Ev where
  | sig_started
  | sig_finished
  | sig_error (msg : String)
  | call (t : TaskId) (o : Op)
  | sleepPoll
  | sleepSettle
  deriving DecidableEq

/-- `true` exactly on `error(str)` signal events. -/
def isErrorEv : Ev → Bool
  | Ev.sig_error _ => true
  | _ => false

/-- Environment of a run: driver availability, whether the driver object
has `WriteAnalogScalarF64`, the outcome of each driver call, and the
flag-read index at which a stop request becomes visible. -/
structure Env where
  daqAvailable : Bool
  hasScalar : Bool
  failAt : ℕ → Option String
  stopAt : ℕ

/-- Run-local counters: driver calls made and stop-flag reads done. -/
structure RS where
  calls : ℕ
  reads : ℕ
  deriving DecidableEq

/-- One driver call: emits its event and either succeeds or raises with
the message chosen by the environment. -/
def drvCall (env : Env) (s : RS) (t : TaskId) (o : Op) :
    List Ev × RS × Option String :=
  ([Ev.call t o], { s with calls := s.calls + 1 }, env.failAt s.calls)

/-- One read of `self._stop_requested`. -/
def readStop (env : Env) (s : RS) : RS × Bool :=
  ({ s with reads := s.reads + 1 }, decide (env.stopAt ≤ s.reads))

/-- A sequence of driver calls aborted by the first raised exception
(straight-line statement sequences inside the `try` block). -/
def callSeq (env : Env) : RS → List (TaskId × Op) → List Ev × RS × Option String
  | s, [] => ([], s, none)
  | s, (t, o) :: rest =>
    let dc := drvCall env s t o
    match dc.2.2 with
    | some m => (dc.1, dc.2.1, some m)
    | none =>
      let res := callSeq env dc.2.1 rest
      (dc.1 ++ res.1, res.2.1, res.2.2)

/-- The bounded completion-poll loop (backend lines 96–102 and 159–165):
`while not self._stop_requested and elapsed < timeout:` with
`try: wait(1.0); break / except: elapsed += 1`.  Exceptions raised by
the wait are swallowed by the loop, so the loop itself never raises. -/
def waitPollLoop (env : Env) (tid : TaskId) (timeout : ℚ) (elapsed : ℕ)
    (s : RS) : List Ev × RS :=
  let rs := readStop env s
  if rs.2 = true then ([], rs.1)
  else if h : (elapsed : ℚ) < timeout then
    let dc := drvCall env rs.1 tid Op.wait
    match dc.2.2 with
    | none => (dc.1, dc.2.1)
    | some _ =>
      let res := waitPollLoop env tid timeout (elapsed + 1) dc.2.1
      (dc.1 ++ res.1, res.2)
  else ([], rs.1)
termination_by ⌈timeout⌉.toNat - elapsed
decreasing_by
  have h1 : ((elapsed : ℤ) : ℚ) < timeout := by exact_mod_cast h
  have h2 : (elapsed : ℤ) < ⌈timeout⌉ := Int.lt_ceil.mpr h1
  omega

/-- The infinite-mode stop-poll loop (backend lines 155–156):
`while not self._stop_requested: time.sleep(0.1)`. -/
def stopPollLoop (env : Env) (s : RS) : List Ev × RS :=
  if env.stopAt ≤ s.reads then ([], { s with reads := s.reads + 1 })
  else
    let res := stopPollLoop env { s with reads := s.reads + 1 }
    (Ev.sleepPoll :: res.1, res.2)
termination_by env.stopAt - s.reads
decreasing_by simp_wf; omega

/-- Creation and configuration of the main task `t` (backend lines
109–117, 120–128 and 136–144).  The returned `Bool` says whether `t`
holds a task object afterwards: `nidaq.Task()` raising leaves `t` at
`None`, any later failure leaves the created task in `t`. -/
def createMainTask (env : Env) (s : RS) :
    List Ev × RS × Option String × Bool :=
  let dc := drvCall env s TaskId.mainT Op.create
  match dc.2.2 with
  | some m => (dc.1, dc.2.1, some m, false)
  | none =>
    let cs := callSeq env dc.2.1
      [(TaskId.mainT, Op.chan), (TaskId.mainT, Op.cfg),
       (TaskId.mainT, Op.write), (TaskId.mainT, Op.start)]
    (dc.1 ++ cs.1, cs.2.1, cs.2.2, true)

/-- The infinite-mode branch with a positive initial delay (backend
lines 82–117): emit `started`, play the delay buffer as a finite task,
poll for its completion, release it, then — unless a stop was requested
— create the continuous main task. -/
def tryInfDelay (env : Env) (p : GenerationParameters) (s : RS) :
    List Ev × RS × Option String × Bool :=
  let cs1 := callSeq env s
    [(TaskId.delayT, Op.create), (TaskId.delayT, Op.chan),
     (TaskId.delayT, Op.cfg), (TaskId.delayT, Op.write),
     (TaskId.delayT, Op.start)]
  match cs1.2.2 with
  | some m => (Ev.sig_started :: cs1.1, cs1.2.1, some m, false)
  | none =>
    let wl := waitPollLoop env TaskId.delayT (p.initial_trigger_delay + 5) 0 cs1.2.1
    let cs3 := callSeq env wl.2 [(TaskId.delayT, Op.stop), (TaskId.delayT, Op.clear)]
    match cs3.2.2 with
    | some m => (Ev.sig_started :: (cs1.1 ++ wl.1 ++ cs3.1), cs3.2.1, some m, false)
    | none =>
      let rs := readStop env cs3.2.1
      if rs.2 = true then
        (Ev.sig_started :: (cs1.1 ++ wl.1 ++ cs3.1), rs.1, none, false)
      else
        let cm := createMainTask env rs.1
        (Ev.sig_started :: (cs1.1 ++ wl.1 ++ cs3.1 ++ cm.1),
         cm.2.1, cm.2.2.1, cm.2.2.2)

/-- Backend lines 146–168: the late `started` emissions and, when a
main task exists, the stop/completion polling followed by
`t.StopTask(); t.ClearTask()`. -/
def mainPhase (env : Env) (p : GenerationParameters) (s : RS) (hasTask : Bool) :
    List Ev × RS × Option String :=
  let em : List Ev :=
    if p.infinite ∧ initial_delay_samples p = 0 then [Ev.sig_started]
    else if ¬ p.infinite then [Ev.sig_started]
    else []
  if hasTask then
    if p.infinite then
      let lp := stopPollLoop env s
      let cs := callSeq env lp.2 [(TaskId.mainT, Op.stop), (TaskId.mainT, Op.clear)]
      (em ++ lp.1 ++ cs.1, cs.2.1, cs.2.2)
    else
      let timeout := p.initial_trigger_delay +
        p.nb_triggers * (p.inter_trigger_interval + p.trigger_duration) + 10
      let lp := waitPollLoop env TaskId.mainT timeout 0 s
      let cs := callSeq env lp.2 [(TaskId.mainT, Op.stop), (TaskId.mainT, Op.clear)]
      (em ++ lp.1 ++ cs.1, cs.2.1, cs.2.2)
  else (em, s, none)

/-- The whole `try` block of `run` (backend lines 63–168).  The result
is: trace, counters, the exception escaping to `except` (if any), and
whether `t` holds a task object at exit (`NameError` on an unbound `t`
and `t is None` both make the `finally` skip the main-task cleanup, so
one `Bool` captures both). -/
def tryBody (env : Env) (p : GenerationParameters) (s : RS) :
    List Ev × RS × Option String × Bool :=
  if env.daqAvailable = false then
    ([Ev.sig_error "PyDAQmx is not installed."], s, none, false)
  else
    let setup :=
      if p.infinite then
        if 0 < initial_delay_samples p then tryInfDelay env p s
        else createMainTask env s
      else createMainTask env s
    match setup.2.2.1 with
    | some m => (setup.1, setup.2.1, some m, setup.2.2.2)
    | none =>
      let mp := mainPhase env p setup.2.1 setup.2.2.2
      (setup.1 ++ mp.1, mp.2.1, mp.2.2, setup.2.2.2)

/-- The body of the zero-forcing `try` in the `finally` block (backend
lines 191–206), after `t_zero = nidaq.Task()` has succeeded: create the
channel, then either the scalar write path or the one-sample buffer
path (whose trailing wait swallows its own exception). -/
def zeroSetup (env : Env) (s : RS) : List Ev × RS × Option String :=
  let dc := drvCall env s TaskId.zeroT Op.chan
  match dc.2.2 with
  | some m => (dc.1, dc.2.1, some m)
  | none =>
    if env.hasScalar then
      let cs := callSeq env dc.2.1
        [(TaskId.zeroT, Op.start), (TaskId.zeroT, Op.writeScalar)]
      (dc.1 ++ cs.1, cs.2.1, cs.2.2)
    else
      let cs := callSeq env dc.2.1 [(TaskId.zeroT, Op.cfg), (TaskId.zeroT, Op.write)]
      match cs.2.2 with
      | some m => (dc.1 ++ cs.1, cs.2.1, some m)
      | none =>
        let dw := drvCall env cs.2.1 TaskId.zeroT Op.wait
        (dc.1 ++ cs.1 ++ dw.1, dw.2.1, none)

/-- The zero-forcing block of the `finally` (backend lines 189–215):
`t_zero = None; try: t_zero = Task(); ... except: pass` and the nested
`finally` that stops and clears `t_zero` when it was created (its own
exceptions swallowed; `ClearTask` is skipped when `StopTask` raises,
since both live in one `try`). -/
def zeroBlock (env : Env) (s : RS) : List Ev × RS :=
  let dc := drvCall env s TaskId.zeroT Op.create
  match dc.2.2 with
  | some _ => (dc.1, dc.2.1)
  | none =>
    let zs := zeroSetup env dc.2.1
    let dstop := drvCall env zs.2.1 TaskId.zeroT Op.stop
    match dstop.2.2 with
    | some _ => (dc.1 ++ zs.1 ++ dstop.1, dstop.2.1)
    | none =>
      let dclear := drvCall env dstop.2.1 TaskId.zeroT Op.clear
      (dc.1 ++ zs.1 ++ dstop.1 ++ dclear.1, dclear.2.1)

/-- The `finally` block before the terminal `finished` emission (backend
lines 172–215): when the driver is available, stop and clear the main
task if one exists (each exception swallowed), sleep 0.05 s, then run
the zero-forcing block. -/
def finallyBlock (env : Env) (s : RS) (hasTask : Bool) : List Ev × RS :=
  if env.daqAvailable then
    let cleanup : List Ev × RS :=
      if hasTask then
        let dstop := drvCall env s TaskId.mainT Op.stop
        let dclear := drvCall env dstop.2.1 TaskId.mainT Op.clear
        (dstop.1 ++ dclear.1, dclear.2.1)
      else ([], s)
    let zb := zeroBlock env cleanup.2
    (cleanup.1 ++ Ev.sleepSettle :: zb.1, zb.2)
  else ([], s)

/-- The `except` clause of `run` (backend lines 170–171):
`self.error.emit(str(e))` when an exception escaped the `try` body. -/
def excTrace : Option String → List Ev
  | none => []
  | some m => [Ev.sig_error m]

/-- `DAQWorker.run` (backend lines 60–216) as a trace: the `try` body,
the `except` clause (`self.error.emit(str(e))`), the `finally` block,
and the unconditional terminal `self.finished.emit()`. -/
def runWorker (env : Env) (p : GenerationParameters) : List Ev :=
  let res := tryBody env p ⟨0, 0⟩
  let fin := finallyBlock env res.2.1 res.2.2.2
  res.1 ++ excTrace res.2.2.1 ++ (fin.1 ++ [Ev.sig_finished])

/-! ## Helper lemmas -/

/-- `getD` on a mapped range is the function below the length and the
default above it. -/
lemma getD_range_map (n i : ℕ) (f : ℕ → ℚ) :
    ((List.range n).map f).getD i 0 = if i < n then f i else 0 := by
  by_cases h : i < n
  · simp [List.getD, List.getElem?_map, List.getElem?_range, h]
  · rw [if_neg h]
    have hlen : ((List.range n).map f).length ≤ i := by
      simpa using Nat.le_of_not_lt h
    simp [List.getD, List.getElem?_eq_none hlen]

/-- `fmod` is invariant under adding natural multiples of the divisor. -/
lemma fmod_add_nat_mul (a b : ℚ) (hb : b ≠ 0) (k : ℕ) :
    fmod (a + k * b) b = fmod a b := by
  unfold fmod
  have hdiv : (a + k * b) / b = a / b + k := by field_simp
  rw [hdiv, Int.floor_add_nat]
  push_cast
  ring

/-- Sample counts of nonnegative durations are nonnegative. -/
lemma pyInt_nonneg {q : ℚ} (h : 0 ≤ q) : 0 ≤ pyInt q := by
  unfold pyInt
  rw [if_pos h]
  exact Int.le_floor.mpr (by exact_mod_cast h)

lemma trigger_samples_nonneg {p : GenerationParameters} (hv : ValidParams p) :
    0 ≤ trigger_samples p :=
  pyInt_nonneg (mul_nonneg hv.2.1.le hv.1.le)

lemma interval_samples_nonneg {p : GenerationParameters} (hv : ValidParams p) :
    0 ≤ interval_samples p :=
  pyInt_nonneg (mul_nonneg hv.2.2.1 hv.1.le)

lemma initial_delay_samples_nonneg {p : GenerationParameters} (hv : ValidParams p) :
    0 ≤ initial_delay_samples p :=
  pyInt_nonneg (mul_nonneg hv.2.2.2.1 hv.1.le)

lemma cycle_duration_pos {p : GenerationParameters} (hv : ValidParams p) :
    0 < cycle_duration p := by
  unfold cycle_duration
  have h1 := hv.2.1
  have h2 := hv.2.2.1
  linarith

/-! ## Concrete inputs for witnesses and counterexamples -/

/-- Integer-valued finite-mode parameters (1 s trigger, 2 s interval,
5 s delay, 3 triggers at 1000 Hz). -/
def pEx : GenerationParameters :=
  { sampling_rate := 1000, trigger_duration := 1, inter_trigger_interval := 2,
    initial_trigger_delay := 5, infinite := false, nb_triggers := 3 }

/-- Integer-valued infinite-mode parameters. -/
def pInf : GenerationParameters :=
  { sampling_rate := 1000, trigger_duration := 1, inter_trigger_interval := 2,
    initial_trigger_delay := 5, infinite := true, nb_triggers := 5 }

/-- Parameters whose trigger duration (0.0015 s at 1000 Hz) separates
truncation from round-to-nearest. -/
def pC3 : GenerationParameters :=
  { sampling_rate := 1000, trigger_duration := 3/2000,
    inter_trigger_interval := 20, initial_trigger_delay := 5,
    infinite := false, nb_triggers := 5 }

/-! ## C3 — sample counts -/

/-- C3 counterexample: on valid parameters with `trigger_duration = 0.0015 s`
and `sampling_rate = 1000 Hz`, the code's `int(0.0015 * 1000) = 1` differs
from round-to-nearest `round(1.5) = 2`, so sample counts are not
round-to-nearest of `duration * sampling_rate`. -/
theorem trigger_samples_not_round :
    ValidParams pC3 ∧
    trigger_samples pC3 ≠ round (pC3.trigger_duration * pC3.sampling_rate) := by
  constructor
  · refine ⟨by norm_num [pC3], by norm_num [pC3], by norm_num [pC3],
      by norm_num [pC3], by norm_num [pC3]⟩
  · norm_num [trigger_samples, pyInt, pC3, round_eq]

/-- C3 (amended): for all valid parameters,
`samples_per_cycle = trigger_samples + interval_samples`, and every sample
count (initial delay, trigger, interval) is the truncation (`int`, which
is the floor for these nonnegative products) of `duration * sampling_rate`
— not round-to-nearest. -/
theorem sample_counts_truncate (p : GenerationParameters) (hv : ValidParams p) :
    samples_per_cycle p = trigger_samples p + interval_samples p ∧
    trigger_samples p = ⌊p.trigger_duration * p.sampling_rate⌋ ∧
    interval_samples p = ⌊p.inter_trigger_interval * p.sampling_rate⌋ ∧
    initial_delay_samples p = ⌊p.initial_trigger_delay * p.sampling_rate⌋ := by
  obtain ⟨hr, ht, hi, hd, hn⟩ := hv
  refine ⟨rfl, ?_, ?_, ?_⟩
  · unfold trigger_samples pyInt
    rw [if_pos (mul_nonneg ht.le hr.le)]
  · unfold interval_samples pyInt
    rw [if_pos (mul_nonneg hi hr.le)]
  · unfold initial_delay_samples pyInt
    rw [if_pos (mul_nonneg hd hr.le)]

/-- Witness for the amended C3 at concrete valid parameters. -/
theorem sample_counts_truncate_witness :
    ValidParams pEx ∧
    (samples_per_cycle pEx = trigger_samples pEx + interval_samples pEx ∧
     trigger_samples pEx = ⌊pEx.trigger_duration * pEx.sampling_rate⌋ ∧
     interval_samples pEx = ⌊pEx.inter_trigger_interval * pEx.sampling_rate⌋ ∧
     initial_delay_samples pEx = ⌊pEx.initial_trigger_delay * pEx.sampling_rate⌋) :=
  ⟨by decide, sample_counts_truncate pEx (by decide)⟩

/-! ## C4 — finite-mode Done boundary -/

/-- C4: in Finite(N) mode, the displayed phase is `Done` exactly when
`elapsed >= initial_delay + N * cycle_duration`, and never before. -/
theorem finite_done_iff (p : GenerationParameters) (hv : ValidParams p)
    (hfin : p.infinite = false) (elapsed : ℚ) :
    update_state_phase p elapsed = Phase.done ↔
      p.initial_trigger_delay + (p.nb_triggers : ℚ) * cycle_duration p ≤ elapsed := by
  have hcyc : 0 < cycle_duration p := cycle_duration_pos hv
  have hN1 : (1 : ℚ) ≤ (p.nb_triggers : ℚ) := by exact_mod_cast hv.2.2.2.2
  have hNc : 0 < (p.nb_triggers : ℚ) * cycle_duration p := by nlinarith
  unfold update_state_phase
  simp only [hfin, Bool.false_eq_true, if_false]
  by_cases h1 : elapsed < p.initial_trigger_delay
  · rw [if_pos h1]
    constructor
    · intro hph
      exact absurd hph (by decide)
    · intro hle
      exfalso
      linarith
  · rw [if_neg h1]
    by_cases h2 : (p.nb_triggers : ℚ) * cycle_duration p ≤ elapsed - p.initial_trigger_delay
    · rw [if_pos h2]
      constructor
      · intro _
        linarith
      · intro _
        rfl
    · rw [if_neg h2]
      constructor
      · intro hph
        split_ifs at hph <;> exact absurd hph (by decide)
      · intro hle
        exfalso
        exact h2 (by linarith)

/-- Witness for C4: with 3 triggers of cycle 3 s after a 5 s delay,
`Done` holds at `elapsed = 14` exactly as the boundary says. -/
theorem finite_done_iff_witness :
    ValidParams pEx ∧ pEx.infinite = false ∧
    (update_state_phase pEx 14 = Phase.done ↔
      pEx.initial_trigger_delay + (pEx.nb_triggers : ℚ) * cycle_duration pEx ≤ 14) :=
  ⟨by decide, rfl, finite_done_iff pEx (by decide) rfl 14⟩

/-! ## C5 — purity and periodicity of the phase computation -/

/-- C5: the phase is a pure function of `(params, elapsed)` (identical
inputs give identical output), and in Infinite mode, once past the
initial delay, it is periodic with period `cycle_duration`. -/
theorem phase_pure_and_periodic (p : GenerationParameters) (hv : ValidParams p)
    (hinf : p.infinite = true) (e : ℚ) (he : p.initial_trigger_delay ≤ e)
    (k : ℕ) :
    update_state_phase p e = update_state_phase p e ∧
    update_state_phase p (e + (k : ℚ) * cycle_duration p) = update_state_phase p e := by
  refine ⟨rfl, ?_⟩
  have hcyc : 0 < cycle_duration p := cycle_duration_pos hv
  have hk : 0 ≤ (k : ℚ) * cycle_duration p := by positivity
  have he2 : ¬ (e < p.initial_trigger_delay) := not_lt.mpr he
  have he3 : ¬ (e + (k : ℚ) * cycle_duration p < p.initial_trigger_delay) := by
    push_neg
    linarith
  unfold update_state_phase
  simp only [hinf, if_true, if_neg he2, if_neg he3]
  have harg : e + (k : ℚ) * cycle_duration p - p.initial_trigger_delay
      = (e - p.initial_trigger_delay) + (k : ℚ) * cycle_duration p := by
    ring
  rw [harg, fmod_add_nat_mul _ _ hcyc.ne' k]

/-- Witness for C5 at concrete parameters, `elapsed = 5`, `k = 2`. -/
theorem phase_pure_and_periodic_witness :
    ValidParams pInf ∧ pInf.infinite = true ∧ pInf.initial_trigger_delay ≤ 5 ∧
    (update_state_phase pInf 5 = update_state_phase pInf 5 ∧
     update_state_phase pInf (5 + ((2 : ℕ) : ℚ) * cycle_duration pInf) =
       update_state_phase pInf 5) :=
  ⟨by decide, rfl, by decide,
   phase_pure_and_periodic pInf (by decide) rfl 5 (by decide) 2⟩

/-! ## C6 — one-cycle buffer shape -/

/-- C6: for valid parameters the one-cycle buffer has length
`samples_per_cycle`, holds the active voltage (2 V) at every index below
`trigger_samples`, and the neutral voltage (0 V) at every index from
`trigger_samples` on. -/
theorem sig_cycle_two_level (p : GenerationParameters) (hv : ValidParams p) :
    ((Sig_cycle p).length : ℤ) = samples_per_cycle p ∧
    (∀ i : ℕ, (i : ℤ) < trigger_samples p → (Sig_cycle p).getD i 0 = 2) ∧
    (∀ i : ℕ, trigger_samples p ≤ (i : ℤ) → (Sig_cycle p).getD i 0 = 0) := by
  have h1 : 0 ≤ trigger_samples p := trigger_samples_nonneg hv
  have h2 : 0 ≤ interval_samples p := interval_samples_nonneg hv
  have hspc : 0 ≤ samples_per_cycle p := by
    unfold samples_per_cycle
    omega
  have htle : trigger_samples p ≤ samples_per_cycle p := by
    unfold samples_per_cycle
    omega
  have hslice : pySliceStop (samples_per_cycle p).toNat (trigger_samples p)
      = (trigger_samples p).toNat := by
    unfold pySliceStop
    rw [if_pos h1]
    exact min_eq_left (by omega)
  refine ⟨?_, ?_, ?_⟩
  · simp [Sig_cycle, Int.toNat_of_nonneg hspc]
  · intro i hi2
    have hiN : i < (trigger_samples p).toNat := by omega
    have hiS : i < (samples_per_cycle p).toNat := by omega
    simp only [Sig_cycle]
    rw [getD_range_map, if_pos hiS, hslice, if_pos hiN]
  · intro i hi2
    by_cases hiS : i < (samples_per_cycle p).toNat
    · have hiN : ¬ i < (trigger_samples p).toNat := by omega
      simp only [Sig_cycle]
      rw [getD_range_map, if_pos hiS, hslice, if_neg hiN]
    · simp only [Sig_cycle]
      rw [getD_range_map, if_neg hiS]

/-- Witness for C6 at concrete valid parameters. -/
theorem sig_cycle_two_level_witness :
    ValidParams pEx ∧
    (((Sig_cycle pEx).length : ℤ) = samples_per_cycle pEx ∧
     (∀ i : ℕ, (i : ℤ) < trigger_samples pEx → (Sig_cycle pEx).getD i 0 = 2) ∧
     (∀ i : ℕ, trigger_samples pEx ≤ (i : ℤ) → (Sig_cycle pEx).getD i 0 = 0)) :=
  ⟨by decide, sig_cycle_two_level pEx (by decide)⟩

/-! ## C7 — finite playback buffer -/

/-- C7: the finite-mode buffer is the delay buffer followed by exactly N
copies of the cycle buffer, and its length is
`initial_delay_samples + N * samples_per_cycle`. -/
theorem finite_data_concat_length (p : GenerationParameters) (hv : ValidParams p) :
    finite_data p =
      delay_buffer p ++ (List.replicate p.nb_triggers.toNat (Sig_cycle p)).flatten ∧
    ((finite_data p).length : ℤ) =
      initial_delay_samples p + p.nb_triggers * samples_per_cycle p := by
  have h1 : 0 ≤ trigger_samples p := trigger_samples_nonneg hv
  have h2 : 0 ≤ interval_samples p := interval_samples_nonneg hv
  have hdel : 0 ≤ initial_delay_samples p := initial_delay_samples_nonneg hv
  have hspc : 0 ≤ samples_per_cycle p := by
    unfold samples_per_cycle
    omega
  have hnb : 0 ≤ p.nb_triggers := le_trans (by omega) hv.2.2.2.2
  refine ⟨rfl, ?_⟩
  have hlen : (finite_data p).length =
      (initial_delay_samples p).toNat +
        p.nb_triggers.toNat * (samples_per_cycle p).toNat := by
    simp [finite_data, delay_buffer, Sig_cycle, List.length_flatten,
      List.map_replicate, List.sum_replicate, smul_eq_mul]
  rw [hlen]
  push_cast [Int.toNat_of_nonneg hdel, Int.toNat_of_nonneg hspc,
    Int.toNat_of_nonneg hnb]
  ring

/-- Witness for C7 at concrete valid parameters. -/
theorem finite_data_concat_length_witness :
    ValidParams pEx ∧
    (finite_data pEx =
      delay_buffer pEx ++ (List.replicate pEx.nb_triggers.toNat (Sig_cycle pEx)).flatten ∧
     ((finite_data pEx).length : ℤ) =
      initial_delay_samples pEx + pEx.nb_triggers * samples_per_cycle pEx) :=
  ⟨by decide, finite_data_concat_length pEx (by decide)⟩

/-! ## C8 — stop request is idempotent, total, and flag-only -/

/-- C8: `DAQWorker.stop` is total (a plain function that cannot raise),
idempotent, touches only the stop flag, and calling the GUI's
`stop_generation` with no worker (before a run, or once the handle is
dropped after the terminal signal) is a no-op. -/
theorem stop_idempotent_flag_only (w : DAQWorker) :
    w.stop.stop = w.stop ∧
    w.stop.stop_requested = true ∧
    w.stop.device = w.device ∧
    w.stop.params = w.params ∧
    stop_generation none = none ∧
    stop_generation (stop_generation (some w)) = stop_generation (some w) := by
  refine ⟨rfl, rfl, rfl, rfl, rfl, rfl⟩

/-- Witness for C8 at a concrete worker. -/
theorem stop_idempotent_flag_only_witness :
    ({ device := "Dev2/ao0", params := pEx, stop_requested := false } : DAQWorker).stop.stop
      = ({ device := "Dev2/ao0", params := pEx, stop_requested := false } : DAQWorker).stop :=
  (stop_idempotent_flag_only
    { device := "Dev2/ao0", params := pEx, stop_requested := false }).1

/-! ## C9 — persistence record -/

/-- C9 counterexample: the saved record does not use the claimed field
names `duration_seconds`, `start_time`, `end_time`; it uses
`duree_secondes`, `heure_debut`, `heure_fin`. -/
theorem save_record_keys_differ :
    "duration_seconds" ∉ saveKeys ∧ "start_time" ∉ saveKeys ∧
    "end_time" ∉ saveKeys ∧
    "duree_secondes" ∈ saveKeys ∧ "heure_debut" ∈ saveKeys ∧
    "heure_fin" ∈ saveKeys := by
  refine ⟨?_, ?_, ?_, ?_, ?_, ?_⟩ <;> decide

/-- C9 (amended): the saved flat record's keys are
`device, channel, sampling_rate, trigger_duration, inter_trigger_interval,
initial_trigger_delay, infinite, nb_triggers, duree_secondes, heure_debut,
heure_fin`; on load, missing fields fall back to the documented defaults
(`sampling_rate=1000, trigger_duration=0.2, inter_trigger_interval=20,
initial_trigger_delay=5, infinite=true, nb_triggers=5`), and the legacy
aliases `pulse_duration`, `inter_pulse_interval`, `nb_pulses` are also
recognised as fallbacks. -/
theorem load_defaults_and_legacy :
    saveKeys =
      ["device", "channel", "sampling_rate", "trigger_duration",
       "inter_trigger_interval", "initial_trigger_delay", "infinite",
       "nb_triggers", "duree_secondes", "heure_debut", "heure_fin"] ∧
    load_params {} =
      { device := "Dev2", channel := "ao0", sampling_rate := 1000,
        trigger_duration := 1/5, inter_trigger_interval := 20,
        initial_trigger_delay := 5, infinite := true, nb_triggers := 5 } ∧
    (load_params { pulse_duration := some (3/10) }).trigger_duration = 3/10 ∧
    (load_params { inter_pulse_interval := some 7 }).inter_trigger_interval = 7 ∧
    (load_params { nb_pulses := some 9 }).nb_triggers = 9 ∧
    (load_params { trigger_duration := some 1, pulse_duration := some (3/10) }).trigger_duration = 1 := by
  refine ⟨rfl, rfl, rfl, rfl, rfl, rfl⟩

/-! ## C10 — channel path construction -/

/-- C10 counterexample: when the device string itself contains a `/`,
the result does not contain exactly one `/`. -/
theorem channel_path_slash_not_unique :
    build_channel_path "a/b" "c" = "a/b/c" ∧
    (build_channel_path "a/b" "c").data.count '/' ≠ 1 := by
  refine ⟨?_, ?_⟩ <;> decide

/-- C10 (amended): `build_channel_path` always returns
`"<device>/<channel>"` with the empty-or-whitespace fallbacks `"Dev2"`
and `"ao0"` (so the device-only branch is unreachable), and the result
contains exactly one `/` whenever neither stripped input contains a `/`
itself. -/
theorem build_channel_path_amended (d c : String) :
    build_channel_path d c =
      (if pyStrip d = "" then "Dev2" else pyStrip d) ++ "/" ++
        (if pyStrip c = "" then "ao0" else pyStrip c) ∧
    (('/' ∉ (pyStrip d).data ∧ '/' ∉ (pyStrip c).data) →
      (build_channel_path d c).data.count '/' = 1) := by
  have hA : build_channel_path d c =
      (if pyStrip d = "" then "Dev2" else pyStrip d) ++ "/" ++
        (if pyStrip c = "" then "ao0" else pyStrip c) := by
    unfold build_channel_path
    by_cases hc : pyStrip c = ""
    · rw [if_pos hc, if_pos (by decide : ("ao0" : String) ≠ "")]
    · rw [if_neg hc, if_pos hc]
  refine ⟨hA, ?_⟩
  rintro ⟨hd, hc⟩
  rw [hA]
  have hdev : (if pyStrip d = "" then "Dev2" else pyStrip d).data.count '/' = 0 := by
    split_ifs with h
    · decide
    · exact List.count_eq_zero.mpr hd
  have hch : (if pyStrip c = "" then "ao0" else pyStrip c).data.count '/' = 0 := by
    split_ifs with h
    · decide
    · exact List.count_eq_zero.mpr hc
  rw [String.data_append, String.data_append, List.count_append, List.count_append,
    hdev]
  rw [hch]
  decide

/-- Witness for the amended C10 at concrete inputs. -/
theorem build_channel_path_amended_witness :
    build_channel_path " Dev3 " "" =
      (if pyStrip " Dev3 " = "" then "Dev2" else pyStrip " Dev3 ") ++ "/" ++
        (if pyStrip "" = "" then "ao0" else pyStrip "") ∧
    (build_channel_path " Dev3 " "").data.count '/' = 1 :=
  ⟨(build_channel_path_amended " Dev3 " "").1,
   (build_channel_path_amended " Dev3 " "").2 ⟨by decide, by decide⟩⟩

/-! ## Trace lemmas for the run model -/

/-- The events a `try`-block trace may contain (no terminal signal, no
settle sleep, no error signal, no zero-task call). -/
def TryEv (e : Ev) : Prop :=
  e = Ev.sig_started ∨ e = Ev.sleepPoll ∨
  ∃ o, e = Ev.call TaskId.delayT o ∨ e = Ev.call TaskId.mainT o

lemma TryEv.not_terminal {e : Ev} (h : TryEv e) :
    e ≠ Ev.sig_finished ∧ e ≠ Ev.sleepSettle ∧ isErrorEv e = false := by
  rcases h with rfl | rfl | ⟨o, rfl | rfl⟩ <;> exact ⟨by simp, by simp, rfl⟩

lemma callSeq_mem (env : Env) (ops : List (TaskId × Op)) :
    ∀ s, ∀ e ∈ (callSeq env s ops).1, ∃ t o, (t, o) ∈ ops ∧ e = Ev.call t o := by
  induction ops with
  | nil =>
    intro s e he
    simp [callSeq] at he
  | cons hd tl ih =>
    intro s e he
    obtain ⟨t, o⟩ := hd
    cases hf : env.failAt s.calls with
    | some m =>
      simp only [callSeq, drvCall, hf] at he
      simp only [List.mem_singleton] at he
      exact ⟨t, o, by simp, he⟩
    | none =>
      simp only [callSeq, drvCall, hf] at he
      simp only [List.cons_append, List.nil_append, List.mem_cons] at he
      rcases he with rfl | he
      · exact ⟨t, o, by simp, rfl⟩
      · obtain ⟨t2, o2, hto, rfl⟩ := ih _ e he
        exact ⟨t2, o2, by simp [hto], rfl⟩

/-- Specialisation: all operations in `ops` target the task `tid`. -/
lemma callSeq_mem_fixed (env : Env) (s : RS) (tid : TaskId)
    (ops : List (TaskId × Op)) (hops : ∀ x ∈ ops, x.1 = tid) :
    ∀ e ∈ (callSeq env s ops).1, ∃ o, e = Ev.call tid o := by
  intro e he
  obtain ⟨t, o, hto, rfl⟩ := callSeq_mem env ops s e he
  have h1 : t = tid := hops (t, o) hto
  exact ⟨o, by rw [h1]⟩

lemma waitPollLoop_mem_aux (env : Env) (tid : TaskId) (timeout : ℚ) :
    ∀ n elapsed s, ⌈timeout⌉.toNat - elapsed ≤ n →
      ∀ e ∈ (waitPollLoop env tid timeout elapsed s).1, e = Ev.call tid Op.wait := by
  intro n
  induction n with
  | zero =>
    intro elapsed s hn e he
    rw [waitPollLoop] at he
    split at he
    · simp at he
    · split at he
      · rename_i ht
        exfalso
        have h1 : ((elapsed : ℤ) : ℚ) < timeout := by exact_mod_cast ht
        have h2 : (elapsed : ℤ) < ⌈timeout⌉ := Int.lt_ceil.mpr h1
        omega
      · simp at he
  | succ m ih =>
    intro elapsed s hn e he
    rw [waitPollLoop] at he
    split at he
    · simp at he
    · split at he
      · rename_i ht
        simp only [drvCall] at he
        split at he
        · simp only [List.mem_singleton] at he
          exact he
        · simp only [List.cons_append, List.nil_append, List.mem_cons] at he
          rcases he with rfl | he
          · rfl
          · have h1 : ((elapsed : ℤ) : ℚ) < timeout := by exact_mod_cast ht
            have h2 : (elapsed : ℤ) < ⌈timeout⌉ := Int.lt_ceil.mpr h1
            exact ih (elapsed + 1) _ (by omega) e he
      · simp at he

lemma waitPollLoop_mem (env : Env) (tid : TaskId) (timeout : ℚ) (elapsed : ℕ)
    (s : RS) :
    ∀ e ∈ (waitPollLoop env tid timeout elapsed s).1, e = Ev.call tid Op.wait :=
  waitPollLoop_mem_aux env tid timeout _ elapsed s le_rfl

lemma stopPollLoop_mem_aux (env : Env) :
    ∀ n s, env.stopAt - s.reads ≤ n →
      ∀ e ∈ (stopPollLoop env s).1, e = Ev.sleepPoll := by
  intro n
  induction n with
  | zero =>
    intro s hn e he
    rw [stopPollLoop] at he
    split at he
    · simp at he
    · rename_i h
      exfalso
      omega
  | succ m ih =>
    intro s hn e he
    rw [stopPollLoop] at he
    split at he
    · simp at he
    · rename_i h
      simp only [List.mem_cons] at he
      rcases he with rfl | he
      · rfl
      · exact ih { s with reads := s.reads + 1 }
          (by show env.stopAt - (s.reads + 1) ≤ m; omega) e he

lemma stopPollLoop_mem (env : Env) (s : RS) :
    ∀ e ∈ (stopPollLoop env s).1, e = Ev.sleepPoll :=
  stopPollLoop_mem_aux env _ s le_rfl

lemma createMainTask_mem (env : Env) (s : RS) :
    ∀ e ∈ (createMainTask env s).1, ∃ o, e = Ev.call TaskId.mainT o := by
  intro e he
  simp only [createMainTask, drvCall] at he
  split at he
  · simp only [List.mem_singleton] at he
    exact ⟨Op.create, he⟩
  · simp only [List.cons_append, List.nil_append, List.mem_cons] at he
    rcases he with rfl | he
    · exact ⟨Op.create, rfl⟩
    · exact callSeq_mem_fixed env _ TaskId.mainT _ (by decide) e he

lemma tryInfDelay_mem (env : Env) (p : GenerationParameters) (s : RS) :
    ∀ e ∈ (tryInfDelay env p s).1, TryEv e := by
  have hdelay : ∀ s2, ∀ e ∈ (callSeq env s2
      [(TaskId.delayT, Op.create), (TaskId.delayT, Op.chan),
       (TaskId.delayT, Op.cfg), (TaskId.delayT, Op.write),
       (TaskId.delayT, Op.start)]).1, TryEv e := by
    intro s2 e he
    obtain ⟨o, rfl⟩ := callSeq_mem_fixed env s2 TaskId.delayT _ (by decide) e he
    exact Or.inr (Or.inr ⟨o, Or.inl rfl⟩)
  have hrel : ∀ s2, ∀ e ∈ (callSeq env s2
      [(TaskId.delayT, Op.stop), (TaskId.delayT, Op.clear)]).1, TryEv e := by
    intro s2 e he
    obtain ⟨o, rfl⟩ := callSeq_mem_fixed env s2 TaskId.delayT _ (by decide) e he
    exact Or.inr (Or.inr ⟨o, Or.inl rfl⟩)
  have hwl : ∀ el s2, ∀ e ∈ (waitPollLoop env TaskId.delayT
      (p.initial_trigger_delay + 5) el s2).1, TryEv e := by
    intro el s2 e he
    rw [waitPollLoop_mem env TaskId.delayT _ el s2 e he]
    exact Or.inr (Or.inr ⟨Op.wait, Or.inl rfl⟩)
  have hcm : ∀ s2, ∀ e ∈ (createMainTask env s2).1, TryEv e := by
    intro s2 e he
    obtain ⟨o, rfl⟩ := createMainTask_mem env s2 e he
    exact Or.inr (Or.inr ⟨o, Or.inr rfl⟩)
  intro e he
  simp only [tryInfDelay] at he
  split at he
  · simp only [List.mem_cons] at he
    rcases he with rfl | he
    · exact Or.inl rfl
    · exact hdelay _ e he
  · split at he
    · simp only [List.mem_cons, List.mem_append] at he
      rcases he with rfl | (he | he) | he
      · exact Or.inl rfl
      · exact hdelay _ e he
      · exact hwl _ _ e he
      · exact hrel _ e he
    · split at he
      · simp only [List.mem_cons, List.mem_append] at he
        rcases he with rfl | (he | he) | he
        · exact Or.inl rfl
        · exact hdelay _ e he
        · exact hwl _ _ e he
        · exact hrel _ e he
      · simp only [List.mem_cons, List.mem_append] at he
        rcases he with rfl | ((he | he) | he) | he
        · exact Or.inl rfl
        · exact hdelay _ e he
        · exact hwl _ _ e he
        · exact hrel _ e he
        · exact hcm _ e he

lemma mainPhase_mem (env : Env) (p : GenerationParameters) (s : RS) (ht : Bool) :
    ∀ e ∈ (mainPhase env p s ht).1, TryEv e := by
  have hrel : ∀ s2, ∀ e ∈ (callSeq env s2
      [(TaskId.mainT, Op.stop), (TaskId.mainT, Op.clear)]).1, TryEv e := by
    intro s2 e he
    obtain ⟨o, rfl⟩ := callSeq_mem_fixed env s2 TaskId.mainT _ (by decide) e he
    exact Or.inr (Or.inr ⟨o, Or.inr rfl⟩)
  intro e he
  simp only [mainPhase] at he
  split at he
  · split at he
    · simp only [List.append_assoc, List.mem_append] at he
      rcases he with he | he | he
      · split at he
        · simp only [List.mem_singleton] at he
          exact Or.inl he
        · simp at he
      · rw [stopPollLoop_mem env _ e he]
        exact Or.inr (Or.inl rfl)
      · exact hrel _ e he
    · simp only [List.append_assoc, List.mem_append] at he
      rcases he with he | he | he
      · split at he <;> simp only [List.mem_singleton] at he <;> exact Or.inl he
      · rw [waitPollLoop_mem env TaskId.mainT _ 0 _ e he]
        exact Or.inr (Or.inr ⟨Op.wait, Or.inr rfl⟩)
      · exact hrel _ e he
  · dsimp only at he
    split at he
    · simp only [List.mem_singleton] at he
      exact Or.inl he
    · split at he
      · simp only [List.mem_singleton] at he
        exact Or.inl he
      · simp at he

lemma tryBody_mem (env : Env) (p : GenerationParameters) (s : RS)
    (h : env.daqAvailable = true) :
    ∀ e ∈ (tryBody env p s).1, TryEv e := by
  have hsetup : ∀ e ∈ ((if p.infinite = true then
      (if 0 < initial_delay_samples p then tryInfDelay env p s
       else createMainTask env s)
      else createMainTask env s)).1, TryEv e := by
    intro e he
    split at he
    · split at he
      · exact tryInfDelay_mem env p s e he
      · obtain ⟨o, rfl⟩ := createMainTask_mem env s e he
        exact Or.inr (Or.inr ⟨o, Or.inr rfl⟩)
    · obtain ⟨o, rfl⟩ := createMainTask_mem env s e he
      exact Or.inr (Or.inr ⟨o, Or.inr rfl⟩)
  intro e he
  simp only [tryBody, h, Bool.true_eq_false, if_false] at he
  split at he
  · exact hsetup e he
  · simp only [List.mem_append] at he
    rcases he with he | he
    · exact hsetup e he
    · exact mainPhase_mem env p _ _ e he

lemma tryBody_unavail (env : Env) (p : GenerationParameters) (s : RS)
    (h : env.daqAvailable = false) :
    tryBody env p s = ([Ev.sig_error "PyDAQmx is not installed."], s, none, false) := by
  simp [tryBody, h]

lemma zeroSetup_mem (env : Env) (s : RS) :
    ∀ e ∈ (zeroSetup env s).1, ∃ o, e = Ev.call TaskId.zeroT o := by
  intro e he
  simp only [zeroSetup, drvCall] at he
  split at he
  · simp only [List.mem_singleton] at he
    exact ⟨Op.chan, he⟩
  · split at he
    · simp only [List.cons_append, List.nil_append, List.mem_cons] at he
      rcases he with rfl | he
      · exact ⟨Op.chan, rfl⟩
      · exact callSeq_mem_fixed env _ TaskId.zeroT _ (by decide) e he
    · split at he
      · simp only [List.cons_append, List.nil_append, List.mem_cons] at he
        rcases he with rfl | he
        · exact ⟨Op.chan, rfl⟩
        · exact callSeq_mem_fixed env _ TaskId.zeroT _ (by decide) e he
      · simp only [List.append_assoc, List.cons_append, List.nil_append,
          List.mem_cons, List.mem_append, List.mem_singleton] at he
        rcases he with rfl | he | rfl | he2
        · exact ⟨Op.chan, rfl⟩
        · exact callSeq_mem_fixed env _ TaskId.zeroT _ (by decide) e he
        · exact ⟨Op.wait, rfl⟩
        · simp at he2

lemma zeroBlock_decomp (env : Env) (s : RS) :
    ∃ rest, (zeroBlock env s).1 = Ev.call TaskId.zeroT Op.create :: rest ∧
      ∀ e ∈ rest, ∃ o, e = Ev.call TaskId.zeroT o := by
  simp only [zeroBlock, drvCall]
  split
  · exact ⟨[], rfl, by simp⟩
  · split
    · refine ⟨(zeroSetup env { s with calls := s.calls + 1 }).1 ++
        [Ev.call TaskId.zeroT Op.stop], by simp, ?_⟩
      intro e he
      simp only [List.mem_append, List.mem_singleton] at he
      rcases he with he | rfl
      · exact zeroSetup_mem env _ e he
      · exact ⟨Op.stop, rfl⟩
    · refine ⟨(zeroSetup env { s with calls := s.calls + 1 }).1 ++
        [Ev.call TaskId.zeroT Op.stop, Ev.call TaskId.zeroT Op.clear], by simp, ?_⟩
      intro e he
      simp only [List.mem_append, List.mem_cons, List.mem_singleton,
        List.not_mem_nil, or_false] at he
      rcases he with he | rfl | rfl
      · exact zeroSetup_mem env _ e he
      · exact ⟨Op.stop, rfl⟩
      · exact ⟨Op.clear, rfl⟩

lemma finallyBlock_decomp (env : Env) (s : RS) (ht : Bool)
    (h : env.daqAvailable = true) :
    ∃ pre mid, (finallyBlock env s ht).1 = pre ++ Ev.sleepSettle :: mid ∧
      (∀ e ∈ pre, ∃ o, e = Ev.call TaskId.mainT o) ∧
      mid.head? = some (Ev.call TaskId.zeroT Op.create) ∧
      (∀ e ∈ mid, ∃ o, e = Ev.call TaskId.zeroT o) := by
  simp only [finallyBlock, h, if_true, drvCall]
  cases ht with
  | false =>
    simp only [Bool.false_eq_true, if_false]
    obtain ⟨rest, hz, hrest⟩ := zeroBlock_decomp env s
    refine ⟨[], Ev.call TaskId.zeroT Op.create :: rest, by simp [hz], by simp, rfl, ?_⟩
    intro e he
    simp only [List.mem_cons] at he
    rcases he with rfl | he
    · exact ⟨Op.create, rfl⟩
    · exact hrest e he
  | true =>
    simp only [if_true]
    obtain ⟨rest, hz, hrest⟩ := zeroBlock_decomp env
      { { s with calls := s.calls + 1 } with calls := { s with calls := s.calls + 1 }.calls + 1 }
    refine ⟨[Ev.call TaskId.mainT Op.stop, Ev.call TaskId.mainT Op.clear],
      Ev.call TaskId.zeroT Op.create :: rest, by simp [hz], ?_, rfl, ?_⟩
    · intro e he
      simp only [List.mem_cons, List.not_mem_nil, or_false] at he
      rcases he with rfl | rfl
      · exact ⟨Op.stop, rfl⟩
      · exact ⟨Op.clear, rfl⟩
    · intro e he
      simp only [List.mem_cons] at he
      rcases he with rfl | he
      · exact ⟨Op.create, rfl⟩
      · exact hrest e he

lemma finallyBlock_unavail (env : Env) (s : RS) (ht : Bool)
    (h : env.daqAvailable = false) :
    finallyBlock env s ht = ([], s) := by
  simp [finallyBlock, h]

/-! ## C2 — exactly one terminal signal, errors collapsed -/

/-- C2: every run of `DAQWorker.run` is a total function of its
environment (no exception escapes the worker); its trace carries at most
one `error(msg)` signal, exactly one terminal `finished` signal, and the
`finished` signal is the very last event. -/
theorem one_terminal_signal (env : Env) (p : GenerationParameters) :
    (runWorker env p).countP isErrorEv ≤ 1 ∧
    (runWorker env p).countP (fun e => decide (e = Ev.sig_finished)) = 1 ∧
    (runWorker env p).getLast? = some Ev.sig_finished := by
  rcases hres : tryBody env p ⟨0, 0⟩ with ⟨trT, sT, excT, htT⟩
  have hrw : runWorker env p =
      trT ++ excTrace excT ++
        ((finallyBlock env sT htT).1 ++ [Ev.sig_finished]) := by
    simp only [runWorker, hres]
  cases hav : env.daqAvailable with
  | false =>
    have hT := tryBody_unavail env p ⟨0, 0⟩ hav
    rw [hres] at hT
    simp only [Prod.mk.injEq] at hT
    obtain ⟨h1, h2, h3, h4⟩ := hT
    subst h1
    subst h2
    subst h3
    subst h4
    rw [hrw]
    rw [finallyBlock_unavail env _ _ hav]
    refine ⟨?_, ?_, ?_⟩ <;> simp [excTrace, isErrorEv]
  | true =>
    have hT : ∀ e ∈ trT, TryEv e := by
      intro e he
      have h2 := tryBody_mem env p ⟨0, 0⟩ hav e
      rw [hres] at h2
      exact h2 he
    obtain ⟨fpre, mid, hfb, hpre, hhead, hmid⟩ := finallyBlock_decomp env sT htT hav
    have hfbE : ∀ e ∈ (finallyBlock env sT htT).1,
        e = Ev.sleepSettle ∨ ∃ t o, e = Ev.call t o := by
      intro e he
      rw [hfb] at he
      simp only [List.mem_append, List.mem_cons] at he
      rcases he with he | rfl | he
      · obtain ⟨o, rfl⟩ := hpre e he
        exact Or.inr ⟨_, o, rfl⟩
      · exact Or.inl rfl
      · obtain ⟨o, rfl⟩ := hmid e he
        exact Or.inr ⟨_, o, rfl⟩
    have cT_err : trT.countP isErrorEv = 0 :=
      List.countP_eq_zero.mpr (fun e he => by
        have h3 := (TryEv.not_terminal (hT e he)).2.2
        simp [h3])
    have cT_fin : trT.countP (fun e => decide (e = Ev.sig_finished)) = 0 :=
      List.countP_eq_zero.mpr (fun e he => by
        have h3 := (TryEv.not_terminal (hT e he)).1
        simp [h3])
    have cF_err : (finallyBlock env sT htT).1.countP isErrorEv = 0 :=
      List.countP_eq_zero.mpr (fun e he => by
        rcases hfbE e he with rfl | ⟨t, o, rfl⟩ <;> simp [isErrorEv])
    have cF_fin : (finallyBlock env sT htT).1.countP
        (fun e => decide (e = Ev.sig_finished)) = 0 :=
      List.countP_eq_zero.mpr (fun e he => by
        rcases hfbE e he with rfl | ⟨t, o, rfl⟩ <;> simp)
    have cE_err : (excTrace excT).countP isErrorEv ≤ 1 := by
      cases excT <;> simp [excTrace, isErrorEv]
    have cE_fin : (excTrace excT).countP
        (fun e => decide (e = Ev.sig_finished)) = 0 := by
      cases excT <;> simp [excTrace]
    refine ⟨?_, ?_, ?_⟩
    · rw [hrw]
      simp only [List.countP_append, cT_err, cF_err]
      have hone : ([Ev.sig_finished] : List Ev).countP isErrorEv = 0 := by
        simp [isErrorEv]
      rw [hone]
      omega
    · rw [hrw]
      simp only [List.countP_append, cT_fin, cF_fin, cE_fin]
      simp
    · rw [hrw]
      have hassoc : trT ++ excTrace excT ++
          ((finallyBlock env sT htT).1 ++ [Ev.sig_finished]) =
          (trT ++ excTrace excT ++ (finallyBlock env sT htT).1) ++
            [Ev.sig_finished] := by
        simp [List.append_assoc]
      rw [hassoc]
      simp

/-! ## C1 — safe shutdown exactly once, then the terminal signal -/

/-- An environment with the driver available, no failing calls, and a
stop request visible from the first flag read. -/
def envOk : Env :=
  { daqAvailable := true, hasScalar := true, failAt := fun _ => none, stopAt := 0 }

/-- An environment in which the PyDAQmx import failed. -/
def envNoDAQ : Env :=
  { daqAvailable := false, hasScalar := true, failAt := fun _ => none, stopAt := 0 }

/-- C1 counterexample: when PyDAQmx is not installed, `run` terminates
with an error but performs no safe-shutdown sequence at all — no settle
sleep and no zero-forcing session — before emitting `finished`.  So the
sequence does not execute on every run regardless of termination
reason. -/
theorem run_no_shutdown_when_daq_missing :
    runWorker envNoDAQ pEx =
      [Ev.sig_error "PyDAQmx is not installed.", Ev.sig_finished] ∧
    Ev.sleepSettle ∉ runWorker envNoDAQ pEx ∧
    Ev.call TaskId.zeroT Op.create ∉ runWorker envNoDAQ pEx := by
  have h : runWorker envNoDAQ pEx =
      [Ev.sig_error "PyDAQmx is not installed.", Ev.sig_finished] := by
    simp [runWorker, tryBody, finallyBlock, excTrace, envNoDAQ]
  refine ⟨h, ?_, ?_⟩ <;> rw [h] <;> simp

/-- C1 (amended): on every run with the driver module available —
under any pattern of driver-call failures and any stop-request
timing — the trace decomposes as a prefix, then exactly one settle
sleep, then the zero-forcing session ops (starting with opening the
minimal session), then the terminal `finished`; the settle sleep and
`finished` occur nowhere else. -/
theorem shutdown_once_before_finished (env : Env) (p : GenerationParameters)
    (h : env.daqAvailable = true) :
    ∃ pre mid,
      runWorker env p = pre ++ Ev.sleepSettle :: (mid ++ [Ev.sig_finished]) ∧
      Ev.sleepSettle ∉ pre ∧ Ev.sleepSettle ∉ mid ∧
      Ev.sig_finished ∉ pre ∧ Ev.sig_finished ∉ mid ∧
      mid.head? = some (Ev.call TaskId.zeroT Op.create) ∧
      (∀ e ∈ mid, ∃ o, e = Ev.call TaskId.zeroT o) := by
  rcases hres : tryBody env p ⟨0, 0⟩ with ⟨trT, sT, excT, htT⟩
  have hT : ∀ e ∈ trT, TryEv e := by
    intro e he
    have h2 := tryBody_mem env p ⟨0, 0⟩ h e
    rw [hres] at h2
    exact h2 he
  obtain ⟨fpre, mid, hfb, hpre, hhead, hmid⟩ := finallyBlock_decomp env sT htT h
  have hrw : runWorker env p =
      trT ++ excTrace excT ++
        ((finallyBlock env sT htT).1 ++ [Ev.sig_finished]) := by
    simp only [runWorker, hres]
  refine ⟨trT ++ excTrace excT ++ fpre, mid, ?_, ?_, ?_, ?_, ?_, hhead, hmid⟩
  · rw [hrw, hfb]
    simp [List.append_assoc]
  · intro hmem
    simp only [List.mem_append] at hmem
    rcases hmem with (hmem | hmem) | hmem
    · exact (TryEv.not_terminal (hT _ hmem)).2.1 rfl
    · cases excT <;> simp [excTrace] at hmem
    · obtain ⟨o, ho⟩ := hpre _ hmem
      simp at ho
  · intro hmem
    obtain ⟨o, ho⟩ := hmid _ hmem
    simp at ho
  · intro hmem
    simp only [List.mem_append] at hmem
    rcases hmem with (hmem | hmem) | hmem
    · exact (TryEv.not_terminal (hT _ hmem)).1 rfl
    · cases excT <;> simp [excTrace] at hmem
    · obtain ⟨o, ho⟩ := hpre _ hmem
      simp at ho
  · intro hmem
    obtain ⟨o, ho⟩ := hmid _ hmem
    simp at ho

/-- Witness for the amended C1 at a concrete environment and concrete
parameters. -/
theorem shutdown_once_before_finished_witness :
    envOk.daqAvailable = true ∧
    (∃ pre mid,
      runWorker envOk pEx = pre ++ Ev.sleepSettle :: (mid ++ [Ev.sig_finished]) ∧
      Ev.sleepSettle ∉ pre ∧ Ev.sleepSettle ∉ mid ∧
      Ev.sig_finished ∉ pre ∧ Ev.sig_finished ∉ mid ∧
      mid.head? = some (Ev.call TaskId.zeroT Op.create) ∧
      (∀ e ∈ mid, ∃ o, e = Ev.call TaskId.zeroT o)) :=
  ⟨rfl, shutdown_once_before_finished envOk pEx rfl⟩
